import Mathlib

/-!
eml2html: body selection, attachment naming and reference rewriting.

A shallow embedding of `content.go` and `msg.go` of `korylprince/eml2html`.

Conventions of the embedding

* Go strings and byte slices (`string`, `[]byte`) are Lean strings; a nil slice and an
  empty slice are both the empty list.
* Go maps (`map[string]T`) are association lists read with `List.lookup`; an assignment
  `m[k] = v` puts the pair `(k, v)` in front, so the newest binding of a key is the one
  that is read.
* Library functions whose tables are too large to restate (`strings.ToLower`, the
  `golang.org/x/net/html` parser and renderer, `html2text.HTML2Text`, `filepath.Join`)
  and the file system are parameters of the functions that call them.
* A Go function returning `(result, error)` returns `Option`; `none` is a non-nil error.
-/

namespace Eml2html

/-! ## String helpers of the Go standard library -/

/-- Go `strings.HasPrefix(s, p)`. -/
def hasPrefix (s p : String) : Bool := p.data.isPrefixOf s.data

/-- Go `strings.HasSuffix(s, suffix)`. -/
def hasSuffix (s suffix : String) : Bool := suffix.data.isSuffixOf s.data

/-- Go `strings.TrimPrefix(s, p)`: `s` without the leading `p`, or `s` itself. -/
def trimPrefix (s p : String) : String :=
  if hasPrefix s p then String.mk (s.data.drop p.data.length) else s

/-- Go `strings.TrimSuffix(s, suffix)`: `s` without the trailing `suffix`, or `s` itself. -/
def trimSuffix (s suffix : String) : String :=
  if hasSuffix s suffix then String.mk (s.data.take (s.data.length - suffix.data.length)) else s

/-- Go `strings.Trim(s, cutset)`: every leading and trailing character of `s` that
occurs in `cutset` is removed. -/
def trim (s cutset : String) : String :=
  String.mk ((s.data.dropWhile fun c => cutset.data.contains c).reverse.dropWhile
    fun c => cutset.data.contains c).reverse

/-- Go `unicode.IsSpace`. -/
def isSpace (c : Char) : Bool :=
  c == '\t' || c == '\n' || c.toNat == 0x0B || c.toNat == 0x0C || c == '\r' || c == ' ' ||
  c.toNat == 0x85 || c.toNat == 0xA0 || c.toNat == 0x1680 ||
  (0x2000 ≤ c.toNat && c.toNat ≤ 0x200A) || c.toNat == 0x2028 || c.toNat == 0x2029 ||
  c.toNat == 0x202F || c.toNat == 0x205F || c.toNat == 0x3000

/-- Go `strings.TrimSpace(s)`. -/
def trimSpace (s : String) : String :=
  String.mk ((s.data.dropWhile isSpace).reverse.dropWhile isSpace).reverse

/-- The backwards scan of Go `filepath.Ext`: `rev` is what is left of the path, last
character first, and `acc` is the part already passed. The scan stops without an
extension at a path separator (`/`, as `os.IsPathSeparator` on Unix) and returns the
suffix starting at the first dot it meets. -/
def extScan : List Char → List Char → List Char
  | [], _ => []
  | c :: rev, acc =>
    if c == '/' then []
    else if c == '.' then '.' :: acc
    else extScan rev (c :: acc)

/-- Go `filepath.Ext(path)`: the suffix starting at the last dot of the final path
element, empty when there is none. -/
def filepathExt (path : String) : String := String.mk (extScan path.data.reverse [])

/-- Go `fmt.Sprintf("%s (%d)%s", name, i, ext)`. -/
def sprintfNumbered (name : String) (i : Nat) (ext : String) : String :=
  name ++ " (" ++ toString i ++ ")" ++ ext

/-- Lower-casing of the ASCII letters. It agrees with Go `strings.ToLower` on every
ASCII string and is used wherever a concrete lower-casing function is needed. -/
def asciiToLower (s : String) : String :=
  String.mk (s.data.map fun c =>
    if 65 ≤ c.toNat && c.toNat ≤ 90 then Char.ofNat (c.toNat + 32) else c)

/-! ## content.go -/

def ContentTypeTextPlain : String := "text/plain"
def ContentTypeTextHTML : String := "text/html"
def ContentTypeMessageRFC822 : String := "message/rfc822"

def ContentTypeMultipartPrefix : String := "multipart/"
def ContentTypeMultipartAlternative : String := "multipart/alternative"
def ContentTypeMultipartMixed : String := "multipart/mixed"
def ContentTypeMultipartRelated : String := "multipart/related"
def ContentTypeMultipartReport : String := "multipart/report"

/-- The fields of `enmime.Part` that the program reads. `children` is the list that
`subParts` builds by following `FirstChild` and `NextSibling`. -/
inductive Part where
  | mk (contentType : String) (content : String) (fileName : String) (contentID : String)
      (children : List Part)

def Part.contentType : Part → String
  | .mk ct _ _ _ _ => ct

def Part.content : Part → String
  | .mk _ c _ _ _ => c

def Part.fileName : Part → String
  | .mk _ _ fn _ _ => fn

def Part.contentID : Part → String
  | .mk _ _ _ cid _ => cid

/-- Go `subParts(m)`. -/
def subParts : Part → List Part
  | .mk _ _ _ _ cs => cs

mutual
/-- Go `findMainContent(m, typ)`. The three kinds of loop over `subParts(m)` are the
first-match search `List.find?`, `recurseFirst` and `collectAll`. -/
def findMainContent : Part → String → List String
  | .mk contentType content _ _ children, typ =>
    if contentType == typ then [content]
    else if !hasPrefix contentType ContentTypeMultipartPrefix then []
    else if contentType == ContentTypeMultipartAlternative then
      match children.find? (fun sub => sub.contentType == typ) with
      | some sub => [sub.content]
      | none =>
        match recurseFirst (fun t => t == ContentTypeMultipartRelated) children typ with
        | some body => body
        | none =>
          match recurseFirst (fun t => hasPrefix t ContentTypeMultipartPrefix) children typ with
          | some body => body
          | none => []
    else if contentType == ContentTypeMultipartRelated then
      match children.find? (fun sub => sub.contentType == typ) with
      | some sub => [sub.content]
      | none =>
        match recurseFirst (fun t => t == ContentTypeMultipartAlternative) children typ with
        | some body => body
        | none =>
          match recurseFirst (fun t => hasPrefix t ContentTypeMultipartPrefix) children typ with
          | some body => body
          | none => []
    else if contentType == ContentTypeMultipartReport then
      match children.find? (fun sub => sub.contentType == typ) with
      | some sub => [sub.content]
      | none =>
        match recurseFirst (fun t => t == ContentTypeMultipartRelated) children typ with
        | some body => body
        | none => []
    else collectAll children typ
/-- The loop `for _, sub := range subParts(m) { if p(sub.ContentType) { return
findMainContent(sub, typ) } }`: `some` of the returned value when the loop returns,
`none` when it runs to its end. -/
def recurseFirst (p : String → Bool) : List Part → String → Option (List String)
  | [], _ => none
  | sub :: rest, typ =>
    if p sub.contentType then some (findMainContent sub typ) else recurseFirst p rest typ
/-- The loop of the `multipart/mixed` and default case: `body` grows by the content of
a child of type `typ`, or else by the recursive result of a multipart child. -/
def collectAll : List Part → String → List String
  | [], _ => []
  | sub :: rest, typ =>
    (if sub.contentType == typ then [sub.content]
     else if hasPrefix sub.contentType ContentTypeMultipartPrefix then findMainContent sub typ
     else []) ++ collectAll rest typ
end

/-! ## msg.go: attachments -/

/-- The fields of `enmime.Envelope` that the program reads. -/
structure Envelope where
  root : Part
  attachments : List Part
  inlines : List Part

/-- Go `type attachment struct { Name string; Link string }`. -/
structure Attachment where
  name : String
  link : String
deriving DecidableEq, Repr

/-- The file system and `filepath.Join`, with `σ` the state of the disk. `writeEmbedded
s root fn content` stands for `writeMsgRoot(root, fn, bytes.NewReader(content))`, which
writes the content and parses it with `enmime.ReadEnvelope`, followed by
`WriteMsg(root, fn, m, &Meta{Parent: "../../index.html"})`, the recursive run of the
pipeline on the parsed message; it is `none` when either returns an error, as
`writeMsgRoot` does on content that does not parse. -/
structure FileSystem (σ : Type) where
  join : String → String → String
  mkdirAll : σ → String → Option σ
  writeFile : σ → String → String → Option σ
  writeEmbedded : σ → String → String → String → Option σ

/-- The test of the embedded `message/rfc822` branch of `writeAttachments`. -/
def isEmbeddedMessage (msg : Part) : Bool :=
  msg.contentType == ContentTypeMessageRFC822 || msg.fileName == "mime-attachment" ||
    hasPrefix msg.fileName ".eml"

/-- The renaming `if i, ok := names[fn]; ok { ... fn = fmt.Sprintf("%s (%d)%s", name, i,
ext) }` of `writeAttachments`. -/
def disambiguate (names : List (String × Nat)) (fn : String) : String :=
  match names.lookup fn with
  | some i =>
    let ext := filepathExt fn
    let name := trimSuffix fn ext
    sprintfNumbered name i ext
  | none => fn

/-- Go `names[fn]++` on a `map[string]int`: an absent key counts as zero. -/
def increment (names : List (String × Nat)) (fn : String) : List (String × Nat) :=
  (fn, (names.lookup fn).getD 0 + 1) :: names

/-- The variables that the loop of `writeAttachments` updates, with the disk. -/
structure AttachState (σ : Type) where
  names : List (String × Nat)
  contentIDMap : List (String × String)
  attachments : List Attachment
  disk : σ

/-- One iteration of the loop of `writeAttachments` on the part `msg`; `none` is the
early return with an error. -/
def attachStep {σ : Type} (fs : FileSystem σ) (root : String) (st : AttachState σ)
    (msg : Part) : Option (AttachState σ) :=
  if isEmbeddedMessage msg then
    let fn := disambiguate st.names "attached.eml"
    let names := increment st.names fn
    match fs.writeEmbedded st.disk root fn msg.content with
    | none => none
    | some disk =>
      some ⟨names, st.contentIDMap, st.attachments ++ [⟨fn, fn ++ "/index.html"⟩], disk⟩
  else if msg.fileName == "" then some st
  else
    let fn := disambiguate st.names msg.fileName
    let names := increment st.names fn
    match fs.writeFile st.disk (fs.join root fn) msg.content with
    | none => none
    | some disk =>
      let contentIDMap :=
        if msg.contentID != "" then (trim msg.contentID "<>", fn) :: st.contentIDMap
        else st.contentIDMap
      some ⟨names, contentIDMap, st.attachments ++ [⟨fn, fn⟩], disk⟩

/-- The loop of `writeAttachments` over the parts. -/
def attachLoop {σ : Type} (fs : FileSystem σ) (root : String) :
    AttachState σ → List Part → Option (AttachState σ)
  | st, [] => some st
  | st, msg :: rest =>
    match attachStep fs root st msg with
    | none => none
    | some st1 => attachLoop fs root st1 rest

/-- Go `writeAttachments(root, msg)`: the descriptors, the content-ID map and the disk
after the run. -/
def writeAttachments {σ : Type} (fs : FileSystem σ) (disk : σ) (root : String)
    (msg : Envelope) : Option (List Attachment × List (String × String) × σ) :=
  let root := fs.join root "attachments"
  match fs.mkdirAll disk root with
  | none => none
  | some disk =>
    match attachLoop fs root ⟨[], [], [], disk⟩ (msg.attachments ++ msg.inlines) with
    | none => none
    | some st => some (st.attachments, st.contentIDMap, st.disk)

/-- A file system on which every operation succeeds; paths are joined with `/`. -/
def okFileSystem : FileSystem Unit :=
  ⟨fun a b => a ++ "/" ++ b, fun _ _ => some (), fun _ _ _ => some (), fun _ _ _ _ => some ()⟩

/-! ## msg.go: rewriting of hypertext bodies -/

/-- Go `html.NodeType`. -/
inductive NodeType where
  | ErrorNode | TextNode | DocumentNode | ElementNode | CommentNode | DoctypeNode | RawNode
deriving DecidableEq, Repr

/-- Go `atom.Atom`, of which the program tells `atom.Meta` from every other code. -/
inductive Atom where
  | Meta
  | Other (code : Nat)
deriving DecidableEq, Repr

/-- Go `html.Attribute`. -/
structure Attribute where
  nameSpace : String
  key : String
  val : String
deriving DecidableEq, Repr

/-- Go `html.Node`, the children being the list reached through `FirstChild` and
`NextSibling`. -/
inductive Node where
  | mk (type : NodeType) (dataAtom : Atom) (data : String) (nameSpace : String)
      (attr : List Attribute) (children : List Node)

def Node.dataAtom : Node → Atom
  | .mk _ a _ _ _ _ => a

def Node.attr : Node → List Attribute
  | .mk _ _ _ _ attr _ => attr

def Node.children : Node → List Node
  | .mk _ _ _ _ _ cs => cs

/-- The library functions that the rewriting and the content writer call:
`strings.ToLower`, `html.Parse`, `html.Render` and `html2text.HTML2Text`. -/
structure Library where
  toLower : String → String
  htmlParse : String → Option Node
  htmlRender : Node → Option String
  html2text : String → String

/-- The attribute list that the first `if` of the meta loop assigns to `n.Attr`. -/
def httpEquivAttrs : List Attribute :=
  [⟨"", "http-equiv", "Content-Type"⟩, ⟨"", "content", "text/html; charset=utf-8"⟩]

/-- The attribute list that the second `if` of the meta loop assigns to `n.Attr`. -/
def charsetAttrs : List Attribute := [⟨"", "charset", "utf-8"⟩]

/-- The body of `for _, attr := range n.Attr` on a meta element: `cur` is the present
value of `n.Attr` and the result is its value after the two `if` statements. -/
def metaStep (L : Library) (cur : List Attribute) (attr : Attribute) : List Attribute :=
  let cur :=
    if L.toLower attr.key == "http-equiv" && L.toLower attr.val == "content-type" then
      httpEquivAttrs
    else cur
  if L.toLower attr.key == "charset" then charsetAttrs else cur

/-- The loop `for _, attr := range n.Attr` on a meta element. The range expression is
evaluated once, so the loop visits the attributes the element had on entry while the
body assigns to `n.Attr`. -/
def metaLoop (L : Library) (attr : List Attribute) : List Attribute :=
  attr.foldl (metaStep L) attr

/-- The body of `for idx, a := range n.Attr` of the link rewriting: the value that
`n.Attr[idx]` holds after the iteration on `a`. -/
def rewriteSrc (L : Library) (contentIDMap : List (String × String)) (a : Attribute) :
    Attribute :=
  if L.toLower a.key == "src" && hasPrefix a.val "cid:" then
    let id := trimPrefix a.val "cid:"
    match contentIDMap.lookup id with
    | some dst => ⟨a.nameSpace, a.key, "../attachments/" ++ dst⟩
    | none => a
  else a

/-- The attribute list of a node after the two loops of the closure `f`. Each iteration
of the second loop writes only the slot it reads, so that loop is a map. -/
def rewriteAttrs (L : Library) (contentIDMap : List (String × String)) (dataAtom : Atom)
    (attr : List Attribute) : List Attribute :=
  (if dataAtom == Atom.Meta then metaLoop L attr else attr).map (rewriteSrc L contentIDMap)

mutual
/-- The closure `f` of `rewriteHTML`, as a function from the tree before to the tree
after. -/
def rewriteHTML.f (L : Library) (contentIDMap : List (String × String)) : Node → Node
  | .mk type dataAtom data nameSpace attr children =>
    .mk type dataAtom data nameSpace (rewriteAttrs L contentIDMap dataAtom attr)
      (rewriteHTML.fChildren L contentIDMap children)
/-- The loop `for c := n.FirstChild; c != nil; c = c.NextSibling { f(c) }`. -/
def rewriteHTML.fChildren (L : Library) (contentIDMap : List (String × String)) :
    List Node → List Node
  | [] => []
  | c :: rest => rewriteHTML.f L contentIDMap c :: rewriteHTML.fChildren L contentIDMap rest
end

/-- Go `rewriteHTML(contentIDMap, b)`. -/
def rewriteHTML (L : Library) (contentIDMap : List (String × String)) (b : String) :
    Option String :=
  match L.htmlParse b with
  | none => none
  | some doc => L.htmlRender (rewriteHTML.f L contentIDMap doc)

/-! ## msg.go: bodies -/

/-- The loop `for i, b := range cleanTC` of `writeContent`, started at index `i`; `tc`
is the selection before the emptiness filter, whose length decides the numbering. -/
def writeTextLoop {σ : Type} (fs : FileSystem σ) (root name : String) (tc : List String) :
    Nat → List String → σ → Option (List String × σ)
  | _, [], disk => some ([], disk)
  | i, b :: rest, disk =>
    let fn := if tc.length > 1 then name ++ "_" ++ toString (i + 1) ++ ".txt"
      else name ++ ".txt"
    match fs.writeFile disk (fs.join root fn) b with
    | none => none
    | some disk =>
      match writeTextLoop fs root name tc (i + 1) rest disk with
      | none => none
      | some (txtContent, disk) => some (fn :: txtContent, disk)

/-- The loop `for i, b := range cleanHC` of `writeContent`, started at index `i`. -/
def writeHTMLLoop {σ : Type} (L : Library) (fs : FileSystem σ) (root name : String)
    (contentIDMap : List (String × String)) (hc : List String) :
    Nat → List String → σ → Option (List String × σ)
  | _, [], disk => some ([], disk)
  | i, b :: rest, disk =>
    let h := match rewriteHTML L contentIDMap b with
      | some h => h
      | none => b
    let fn := if hc.length > 1 then name ++ "_" ++ toString (i + 1) ++ ".html"
      else name ++ ".html"
    match fs.writeFile disk (fs.join root fn) h with
    | none => none
    | some disk =>
      match writeHTMLLoop L fs root name contentIDMap hc (i + 1) rest disk with
      | none => none
      | some (htmlContent, disk) => some (fn :: htmlContent, disk)

/-- The plain-text bodies that survive the emptiness filter of `writeContent`. -/
def cleanTC (tc : List String) : List String :=
  tc.filter fun t => trimSpace t != ""

/-- The hypertext bodies that survive the emptiness filter of `writeContent`. -/
def cleanHC (L : Library) (hc : List String) : List String :=
  hc.filter fun h => trimSpace (L.html2text h) != ""

/-- Go `writeContent(root, name, msg, contentIDMap)`: the names of the text artifacts,
the names of the hypertext artifacts and the disk after the run. -/
def writeContent {σ : Type} (L : Library) (fs : FileSystem σ) (disk : σ) (root name : String)
    (msg : Envelope) (contentIDMap : List (String × String)) :
    Option (List String × List String × σ) :=
  let root := fs.join root "content"
  match fs.mkdirAll disk root with
  | none => none
  | some disk =>
    let ext := filepathExt name
    let name := trimSuffix name ext
    let tc := findMainContent msg.root ContentTypeTextPlain
    let hc := findMainContent msg.root ContentTypeTextHTML
    match writeTextLoop fs root name tc 0 (cleanTC tc) disk with
    | none => none
    | some (txtContent, disk) =>
      match writeHTMLLoop L fs root name contentIDMap hc 0 (cleanHC L hc) disk with
      | none => none
      | some (htmlContent, disk) => some (txtContent, htmlContent, disk)

/-- A library for concrete runs: ASCII lower-casing, a parser that wraps the input in
one text node, a renderer that returns the data of the root, and a text extraction
that returns its input. -/
def sampleLibrary : Library :=
  ⟨asciiToLower, fun b => some (.mk .TextNode (.Other 0) b "" [] []),
    fun n => match n with | .mk _ _ data _ _ _ => some data, fun h => h⟩

/-! ## Vocabulary of the statements and sample inputs -/

/-- The part on which the priority rules of `multipart/alternative` are traced: a
`multipart/mixed` child holding a plain-text body, followed by an empty
`multipart/related` child. -/
def priorityExample : Part :=
  .mk "multipart/alternative" "" "" ""
    [.mk "multipart/mixed" "" "" "" [.mk "text/plain" "x" "" "" []],
     .mk "multipart/related" "" "" "" []]

/-- Three plain attachments that are all named `report.pdf`. -/
def threeReports : Envelope :=
  ⟨.mk "text/plain" "body" "" "" [],
    [.mk "application/pdf" "one" "report.pdf" "" [],
     .mk "application/pdf" "two" "report.pdf" "" [],
     .mk "application/pdf" "three" "report.pdf" "" []], []⟩

/-- Two plain attachments that are both named `report.pdf`, the second one inline. -/
def twoReports : Envelope :=
  ⟨.mk "text/plain" "body" "" "" [],
    [.mk "application/pdf" "one" "report.pdf" "" []],
    [.mk "application/pdf" "two" "report.pdf" "" []]⟩

/-- The parts of a run that get a descriptor: the embedded messages and the parts with
a file name, in processing order. -/
def retainedParts (parts : List Part) : List Part :=
  parts.filter fun p => isEmbeddedMessage p || p.fileName != ""

/-- A retained part that is a plain attachment whose content-ID, as the part carries it
(before any stripping), is not empty. -/
def carriesContentID (p : Part) : Bool :=
  !isEmbeddedMessage p && p.contentID != ""

/-- Given the retained parts paired with their descriptors, the name of the descriptor
of the last plain attachment that carries a content-ID whose stripped form is `k`. -/
def lastRegistered (k : String) (l : List (Part × Attachment)) : Option String :=
  ((l.filter fun pa => carriesContentID pa.1 && trim pa.1.contentID "<>" == k).getLast?).map
    fun pa => pa.2.name

/-- One plain attachment, `a.png`, whose content-ID is a pair of angle brackets. -/
def bracketsOnly : Envelope :=
  ⟨.mk "text/plain" "body" "" "" [], [.mk "image/png" "bytes" "a.png" "<>" []], []⟩

/-- Plain attachments only: `logo.png` with the content-ID `<img1>`, `doc.pdf` without a
content-ID, a part without a file name that carries a content-ID, and the inline part
`a.png` whose content-ID is `<>`. -/
def contentIDSample : Envelope :=
  ⟨.mk "text/plain" "body" "" "" [],
    [.mk "image/png" "one" "logo.png" "<img1>" [],
     .mk "application/pdf" "two" "doc.pdf" "" [],
     .mk "image/png" "three" "" "<skipped>" []],
    [.mk "image/png" "four" "a.png" "<>" []]⟩

mutual
/-- The nodes of a tree, the root first. -/
def Node.nodes : Node → List Node
  | .mk type dataAtom data nameSpace attr children =>
    .mk type dataAtom data nameSpace attr children :: Node.nodesOfList children
/-- The nodes of the trees of a list. -/
def Node.nodesOfList : List Node → List Node
  | [] => []
  | c :: rest => c.nodes ++ Node.nodesOfList rest
end

/-- The content-ID map `{img1 -> photo.png}`. -/
def photoMap : List (String × String) := [("img1", "photo.png")]

/-- An `img` element with the given attributes. -/
def imgElement (attr : List Attribute) : Node :=
  .mk .ElementNode (.Other 1) "img" "" attr []

/-- A `meta` element with the given attributes. -/
def metaElement (attr : List Attribute) : Node :=
  .mk .ElementNode .Meta "meta" "" attr []

/-- A document `html > head > meta, body > img` with the given attributes on the meta
and img elements. -/
def sampleDocument (metaAttr imgAttr : List Attribute) : Node :=
  .mk .DocumentNode (.Other 0) "" "" []
    [.mk .ElementNode (.Other 2) "html" "" []
      [.mk .ElementNode (.Other 3) "head" "" [] [metaElement metaAttr],
       .mk .ElementNode (.Other 4) "body" "" [] [imgElement imgAttr]]]

/-- A message `m.eml` whose root is a `multipart/mixed` part with the given plain-text
bodies as children. -/
def textBodies (bodies : List String) : Envelope :=
  ⟨.mk "multipart/mixed" "" "" "" (bodies.map fun b => .mk "text/plain" b "" "" []), [], []⟩

/-- Two plain attachments, `a.png` and `b.png`, that carry the same content-ID. -/
def sameContentID : Envelope :=
  ⟨.mk "text/plain" "body" "" "" [],
    [.mk "image/png" "one" "a.png" "<x>" [], .mk "image/png" "two" "b.png" "<x>" []], []⟩

/-! ## Body selection -/

theorem Part.contentType_mk (ct content fn cid : String) (cs : List Part) :
    (Part.mk ct content fn cid cs).contentType = ct := rfl

theorem find?_first {α : Type} (p : α → Bool) (pre post : List α) (a : α)
    (hpre : ∀ c ∈ pre, p c = false) (ha : p a = true) :
    (pre ++ a :: post).find? p = some a := by
  induction pre with
  | nil => simp [ha]
  | cons b pre ih =>
    have hb : p b = false := hpre b (by simp)
    simp only [List.cons_append, List.find?_cons, hb]
    exact ih fun c hc => hpre c (by simp [hc])

theorem recurseFirst_eq_find? (p : String → Bool) (typ : String) (cs : List Part) :
    recurseFirst p cs typ =
      (cs.find? fun sub => p sub.contentType).map fun sub => findMainContent sub typ := by
  induction cs with
  | nil => simp [recurseFirst]
  | cons c cs ih =>
    by_cases h : p c.contentType = true
    · simp [recurseFirst, h]
    · simp [recurseFirst, h, ih]

theorem collectAll_eq_flatMap (typ : String) (cs : List Part) :
    collectAll cs typ =
      cs.flatMap fun c =>
        if c.contentType = typ then [c.content]
        else if hasPrefix c.contentType ContentTypeMultipartPrefix = true then
          findMainContent c typ
        else [] := by
  induction cs with
  | nil => simp [collectAll]
  | cons c cs ih => simp [collectAll, ih, List.flatMap_cons]

/-- C1: in a `multipart/alternative` part whose children are `pre ++ sub :: post`, with
`sub` the first child of the target type (`text/plain` or `text/html`), the selection
is the one-element sequence `[sub.content]`, whatever `pre` and `post` hold. -/
theorem findMainContent_alternative_direct (m : Part) (typ : String)
    (pre post : List Part) (sub : Part)
    (hm : m.contentType = ContentTypeMultipartAlternative)
    (htyp : typ = ContentTypeTextPlain ∨ typ = ContentTypeTextHTML)
    (hchildren : subParts m = pre ++ sub :: post)
    (hpre : ∀ c ∈ pre, c.contentType ≠ typ)
    (hsub : sub.contentType = typ) :
    findMainContent m typ = [sub.content] := by
  obtain ⟨ct, content, fn, cid, children⟩ := m
  simp only [Part.contentType] at hm
  simp only [subParts] at hchildren
  subst hm
  have hne : (ContentTypeMultipartAlternative == typ) = false := by
    rcases htyp with h | h <;> subst h <;> decide
  have hfind : children.find? (fun c => c.contentType == typ) = some sub := by
    rw [hchildren]
    exact find?_first _ pre post sub (fun c hc => by simpa using hpre c hc) (by simp [hsub])
  have hpfx : hasPrefix ContentTypeMultipartAlternative ContentTypeMultipartPrefix = true := by
    decide
  simp only [findMainContent, hne, hpfx, hfind, beq_self_eq_true]
  simp

/-- Witness of C1: a `multipart/related` child and a `text/html` child stand before the
first `text/plain` child, and another `text/plain` child follows it. -/
theorem findMainContent_alternative_direct_witness :
    findMainContent
      (.mk "multipart/alternative" "" "" ""
        [.mk "multipart/related" "" "" "" [.mk "text/plain" "inner" "" "" []],
         .mk "text/html" "h" "" "" [], .mk "text/plain" "first" "" "" [],
         .mk "text/plain" "second" "" "" []])
      "text/plain" = ["first"] :=
  findMainContent_alternative_direct _ "text/plain"
    [.mk "multipart/related" "" "" "" [.mk "text/plain" "inner" "" "" []],
     .mk "text/html" "h" "" "" []]
    [.mk "text/plain" "second" "" "" []] (.mk "text/plain" "first" "" "" [])
    rfl (Or.inl rfl) rfl (by decide) rfl

/-- C2: for a part of type `multipart/mixed`, or of any `multipart/` subtype other than
alternative, related and report, and a target type different from the part's own, the
selection is the concatenation over the children, in order, of `[c.content]` for a
child of the target type, of the recursive selection for a multipart child, and of
nothing otherwise. -/
theorem findMainContent_mixed_concat (m : Part) (typ : String)
    (hmulti : hasPrefix m.contentType ContentTypeMultipartPrefix = true)
    (halt : m.contentType ≠ ContentTypeMultipartAlternative)
    (hrel : m.contentType ≠ ContentTypeMultipartRelated)
    (hrep : m.contentType ≠ ContentTypeMultipartReport)
    (htyp : typ ≠ m.contentType) :
    findMainContent m typ =
      (subParts m).flatMap fun c =>
        if c.contentType = typ then [c.content]
        else if hasPrefix c.contentType ContentTypeMultipartPrefix = true then
          findMainContent c typ
        else [] := by
  obtain ⟨ct, content, fn, cid, children⟩ := m
  simp only [Part.contentType] at hmulti halt hrel hrep htyp
  have hne : (ct == typ) = false := by simpa using fun h => htyp h.symm
  simp [findMainContent, hne, hmulti, halt, hrel, hrep, subParts, collectAll_eq_flatMap]

/-- Witness of C2: a `multipart/mixed` part with two plain-text children around a
nested container of an unknown multipart subtype yields all three bodies in order. -/
theorem findMainContent_mixed_concat_witness :
    findMainContent
      (.mk "multipart/mixed" "" "" ""
        [.mk "text/plain" "a" "" "" [],
         .mk "multipart/x-unknown" "" "" "" [.mk "text/plain" "b" "" "" []],
         .mk "application/pdf" "z" "" "" [], .mk "text/plain" "c" "" "" []])
      "text/plain" = ["a", "b", "c"] :=
  (findMainContent_mixed_concat _ "text/plain" (by decide) (by decide) (by decide)
    (by decide) (by decide)).trans (by decide)

/-- C3 (as the code behaves): for a `multipart/alternative` or `multipart/related` part
with no direct child of the target type (the target being different from the part's own
type), the rules are tried in order and the first rule whose child EXISTS decides: when
a preferred child exists (the first `multipart/related` child of an alternative part,
the first `multipart/alternative` child of a related part) the selection is the
recursive selection on it, empty or not; otherwise, when a multipart child exists, it
is the recursive selection on the first such child; otherwise it is empty. -/
theorem findMainContent_priority (m : Part) (typ : String)
    (hm : m.contentType = ContentTypeMultipartAlternative ∨
      m.contentType = ContentTypeMultipartRelated)
    (htyp : typ ≠ m.contentType)
    (hnone : ∀ c ∈ subParts m, c.contentType ≠ typ) :
    findMainContent m typ =
      match (subParts m).find? fun c => c.contentType ==
          (if m.contentType = ContentTypeMultipartAlternative then ContentTypeMultipartRelated
           else ContentTypeMultipartAlternative) with
      | some preferred => findMainContent preferred typ
      | none =>
        match (subParts m).find? fun c => hasPrefix c.contentType ContentTypeMultipartPrefix with
        | some c => findMainContent c typ
        | none => [] := by
  obtain ⟨ct, content, fn, cid, children⟩ := m
  simp only [Part.contentType] at hm htyp
  simp only [subParts] at hnone
  have hfind : children.find? (fun c => c.contentType == typ) = none := by
    rw [List.find?_eq_none]
    intro c hc
    simpa using hnone c hc
  have hne : (ct == typ) = false := by simpa using fun h => htyp h.symm
  rcases hm with h | h
  · subst h
    have hpfx : hasPrefix ContentTypeMultipartAlternative ContentTypeMultipartPrefix = true := by
      decide
    simp only [findMainContent, hne, hpfx, hfind, recurseFirst_eq_find?, subParts,
      Part.contentType_mk, beq_self_eq_true]
    simp only [Bool.false_eq_true, if_false, Bool.not_true, if_true]
    cases List.find? (fun c => c.contentType == ContentTypeMultipartRelated) children with
    | some p => simp
    | none =>
      cases List.find? (fun c => hasPrefix c.contentType ContentTypeMultipartPrefix)
        children <;> simp
  · subst h
    have hpfx : hasPrefix ContentTypeMultipartRelated ContentTypeMultipartPrefix = true := by
      decide
    have hra : (ContentTypeMultipartRelated == ContentTypeMultipartAlternative) = false := by
      decide
    have hra2 : ¬ (ContentTypeMultipartRelated = ContentTypeMultipartAlternative) := by
      decide
    simp only [findMainContent, hne, hpfx, hfind, recurseFirst_eq_find?, subParts,
      Part.contentType_mk, beq_self_eq_true, hra, hra2]
    simp only [Bool.false_eq_true, if_false, Bool.not_true, if_true]
    cases List.find? (fun c => c.contentType == ContentTypeMultipartAlternative) children with
    | some p => simp
    | none =>
      cases List.find? (fun c => hasPrefix c.contentType ContentTypeMultipartPrefix)
        children <;> simp

/-- Witness of C3: the preferred `multipart/related` child is empty and decides, so the
selection is empty although the `multipart/mixed` child holds a plain-text body. -/
theorem findMainContent_priority_witness :
    findMainContent priorityExample "text/plain" = [] :=
  (findMainContent_priority priorityExample "text/plain" (Or.inl rfl) (by decide)
    (by decide)).trans (by decide)

/-- Counterexample to C3 as stated: in `priorityExample` no direct child is of type
`text/plain`, the recursion into the preferred `multipart/related` child yields nothing,
the next rule (recursion into the first multipart child, the `multipart/mixed` one)
would yield `["x"]`, and still the selection is empty. -/
theorem findMainContent_priority_counterexample :
    priorityExample.contentType = ContentTypeMultipartAlternative ∧
    (∀ c ∈ subParts priorityExample, c.contentType ≠ "text/plain") ∧
    ((subParts priorityExample).find? fun c =>
        c.contentType == ContentTypeMultipartRelated).map
      (fun c => findMainContent c "text/plain") = some [] ∧
    ((subParts priorityExample).find? fun c =>
        hasPrefix c.contentType ContentTypeMultipartPrefix).map
      (fun c => findMainContent c "text/plain") = some ["x"] ∧
    findMainContent priorityExample "text/plain" = [] := by
  decide

/-! ## Attachment names -/

theorem sprintfNumbered_one (name ext : String) :
    sprintfNumbered name 1 ext = name ++ " (1)" ++ ext := by
  have h : toString 1 = "1" := by decide
  apply String.ext
  simp [sprintfNumbered, h, String.data_append]

/-- C4 (the code at the failing input): on a disk where every write succeeds, three
plain attachments all named `report.pdf` are given the names `report.pdf`,
`report (1).pdf` and `report (1).pdf`: the third name repeats the second, so the names
are not pairwise distinct. -/
theorem writeAttachments_three_same_name :
    (writeAttachments okFileSystem () "out" threeReports).map
        (fun r => r.1.map Attachment.name) =
      some ["report.pdf", "report (1).pdf", "report (1).pdf"] ∧
    ¬ (["report.pdf", "report (1).pdf", "report (1).pdf"] : List String).Nodup := by
  decide

/-- C5: when the parts of a run are exactly two plain attachments both named `f`, with
`f` non-empty and neither part detected as an embedded message, and no write fails,
the descriptors are named `f` and then `stem ++ " (1)" ++ ext`, where `ext` is
`filepath.Ext(f)` and `stem` is `f` without `ext`. -/
theorem writeAttachments_two_same_name {σ : Type} (fs : FileSystem σ) (disk : σ)
    (root : String) (msg : Envelope) (p1 p2 : Part) (f : String)
    (r : List Attachment × List (String × String) × σ)
    (hparts : msg.attachments ++ msg.inlines = [p1, p2])
    (h1 : p1.fileName = f) (h2 : p2.fileName = f) (hf : f ≠ "")
    (he1 : isEmbeddedMessage p1 = false) (he2 : isEmbeddedMessage p2 = false)
    (hrun : writeAttachments fs disk root msg = some r) :
    r.1.map Attachment.name =
      [f, trimSuffix f (filepathExt f) ++ " (1)" ++ filepathExt f] := by
  have hf1 : (p1.fileName == "") = false := by simpa [h1] using hf
  have hf2 : (p2.fileName == "") = false := by simpa [h2] using hf
  simp only [writeAttachments, hparts, attachLoop, attachStep, he1, he2, hf1, hf2,
    Bool.false_eq_true, if_false] at hrun
  cases hmk : fs.mkdirAll disk (fs.join root "attachments") with
  | none => simp [hmk] at hrun
  | some d0 =>
    simp only [hmk] at hrun
    cases hw1 : fs.writeFile d0
        (fs.join (fs.join root "attachments") (disambiguate [] p1.fileName)) p1.content with
    | none => simp [hw1] at hrun
    | some d1 =>
      simp only [hw1] at hrun
      cases hw2 : fs.writeFile d1
          (fs.join (fs.join root "attachments")
            (disambiguate (increment [] (disambiguate [] p1.fileName)) p2.fileName))
          p2.content with
      | none => simp [hw2] at hrun
      | some d2 =>
        simp only [hw2, Option.some.injEq] at hrun
        subst hrun
        simp [disambiguate, increment, h1, h2, sprintfNumbered_one]

/-- Witness of C5: `report.pdf` twice, the second part being an inline part, on a disk
where every write succeeds, gives `report.pdf` and then `report (1).pdf`. -/
theorem writeAttachments_two_same_name_witness :
    (writeAttachments okFileSystem () "out" twoReports).map
        (fun r => r.1.map Attachment.name) = some ["report.pdf", "report (1).pdf"] :=
  have hrun : writeAttachments okFileSystem () "out" twoReports =
      some ([⟨"report.pdf", "report.pdf"⟩, ⟨"report (1).pdf", "report (1).pdf"⟩], [], ()) := by
    decide
  hrun ▸ congrArg some
    ((writeAttachments_two_same_name okFileSystem () "out" twoReports
      (.mk "application/pdf" "one" "report.pdf" "" [])
      (.mk "application/pdf" "two" "report.pdf" "" []) "report.pdf" _
      rfl rfl rfl (by decide) (by decide) (by decide) hrun).trans (by decide))

/-! ## The content-ID map -/

theorem getLast?_cons_or {α : Type} (x : α) (l : List α) :
    (x :: l).getLast? = l.getLast?.or (some x) := by
  rw [show x :: l = [x] ++ l from rfl, List.getLast?_append]
  simp

theorem lastRegistered_cons (k : String) (pa : Part × Attachment)
    (l : List (Part × Attachment)) :
    lastRegistered k (pa :: l) =
      (lastRegistered k l).or
        (if carriesContentID pa.1 && trim pa.1.contentID "<>" == k then some pa.2.name
         else none) := by
  unfold lastRegistered
  by_cases h : (carriesContentID pa.1 && trim pa.1.contentID "<>" == k) = true
  · rw [List.filter_cons, if_pos h, getLast?_cons_or, if_pos h]
    cases (List.filter (fun pa => carriesContentID pa.1 && trim pa.1.contentID "<>" == k)
      l).getLast? <;> rfl
  · rw [List.filter_cons, if_neg h, if_neg h, Option.or_none]

theorem attachLoop_spec {σ : Type} (fs : FileSystem σ) (root : String) :
    ∀ (ps : List Part) (st st1 : AttachState σ), attachLoop fs root st ps = some st1 →
      ∃ added : List Attachment,
        st1.attachments = st.attachments ++ added ∧
        added.length = (retainedParts ps).length ∧
        ∀ k, st1.contentIDMap.lookup k =
          (lastRegistered k ((retainedParts ps).zip added)).or (st.contentIDMap.lookup k) := by
  intro ps
  induction ps with
  | nil =>
    intro st st1 h
    simp only [attachLoop, Option.some.injEq] at h
    subst h
    exact ⟨[], by simp, by simp [retainedParts], fun k => by simp [retainedParts, lastRegistered]⟩
  | cons p ps ih =>
    intro st st1 h
    simp only [attachLoop] at h
    cases hstep : attachStep fs root st p with
    | none => simp [hstep] at h
    | some st0 =>
      simp only [hstep] at h
      obtain ⟨added, hatt, hlen, hmap⟩ := ih st0 st1 h
      by_cases hemb : isEmbeddedMessage p = true
      · simp only [attachStep, hemb, if_true] at hstep
        cases hw : fs.writeEmbedded st.disk root (disambiguate st.names "attached.eml")
            p.content with
        | none => simp [hw] at hstep
        | some d =>
          simp only [hw, Option.some.injEq] at hstep
          subst hstep
          refine ⟨_ :: added, by simpa using hatt, by simp [retainedParts, hemb, hlen], ?_⟩
          intro k
          have hret : retainedParts (p :: ps) = p :: retainedParts ps := by
            simp [retainedParts, hemb]
          rw [hret, List.zip_cons_cons, lastRegistered_cons, hmap k]
          simp [carriesContentID, hemb]
      · have hemb0 : isEmbeddedMessage p = false := by simpa using hemb
        by_cases hfn : p.fileName = ""
        · simp only [attachStep, hemb0, Bool.false_eq_true, if_false, hfn, beq_self_eq_true,
            if_true, Option.some.injEq] at hstep
          subst hstep
          have hret : retainedParts (p :: ps) = retainedParts ps := by
            simp [retainedParts, hemb0, hfn]
          exact ⟨added, hatt, by rw [hret]; exact hlen, fun k => by rw [hret]; exact hmap k⟩
        · have hfn0 : (p.fileName == "") = false := by simpa using hfn
          simp only [attachStep, hemb0, Bool.false_eq_true, if_false, hfn0] at hstep
          cases hw : fs.writeFile st.disk (fs.join root (disambiguate st.names p.fileName))
              p.content with
          | none => simp [hw] at hstep
          | some d =>
            simp only [hw, Option.some.injEq] at hstep
            subst hstep
            refine ⟨_ :: added, by simpa using hatt, by simp [retainedParts, hemb0, hfn, hlen],
              ?_⟩
            intro k
            have hret : retainedParts (p :: ps) = p :: retainedParts ps := by
              simp [retainedParts, hemb0, hfn]
            rw [hret, List.zip_cons_cons, lastRegistered_cons, hmap k, Option.or_assoc]
            congr 1
            by_cases hcid : p.contentID = ""
            · simp [carriesContentID, hcid]
            · by_cases hk : trim p.contentID "<>" = k
              · simp [carriesContentID, hemb0, hcid, hk, List.lookup_cons]
              · have hk2 : (k == trim p.contentID "<>") = false := by
                  simpa using fun h => hk h.symm
                simp [carriesContentID, hemb0, hcid, hk, hk2, List.lookup_cons]

/-- C10 (as the code behaves): after a run of `writeAttachments` without a write
failure there is one descriptor per retained part, in order, and the content-ID map
binds a key `k` exactly when some retained plain attachment carries a content-ID that
is non-empty before stripping and equal to `k` after its angle brackets are stripped;
the value is the final file name of the last such part. -/
theorem writeAttachments_contentIDMap {σ : Type} (fs : FileSystem σ) (disk : σ)
    (root : String) (msg : Envelope) (r : List Attachment × List (String × String) × σ)
    (hrun : writeAttachments fs disk root msg = some r) :
    r.1.length = (retainedParts (msg.attachments ++ msg.inlines)).length ∧
    ∀ k : String, r.2.1.lookup k =
      lastRegistered k ((retainedParts (msg.attachments ++ msg.inlines)).zip r.1) := by
  simp only [writeAttachments] at hrun
  cases hmk : fs.mkdirAll disk (fs.join root "attachments") with
  | none => simp [hmk] at hrun
  | some d0 =>
    simp only [hmk] at hrun
    cases hloop : attachLoop fs (fs.join root "attachments") ⟨[], [], [], d0⟩
        (msg.attachments ++ msg.inlines) with
    | none => simp [hloop] at hrun
    | some st1 =>
      simp only [hloop, Option.some.injEq] at hrun
      subst hrun
      obtain ⟨added, hatt, hlen, hmap⟩ := attachLoop_spec fs _ _ _ _ hloop
      simp only [List.nil_append] at hatt
      subst hatt
      exact ⟨hlen, fun k => by simpa using hmap k⟩

/-- Witness of C10: on `contentIDSample` the three parts with a file name are retained,
and the map binds `img1` to `logo.png` and the empty key to `a.png`, and nothing
else. -/
theorem writeAttachments_contentIDMap_witness :
    writeAttachments okFileSystem () "out" contentIDSample =
      some ([⟨"logo.png", "logo.png"⟩, ⟨"doc.pdf", "doc.pdf"⟩, ⟨"a.png", "a.png"⟩],
        [("", "a.png"), ("img1", "logo.png")], ()) ∧
    ∀ k : String, List.lookup k [("", "a.png"), ("img1", "logo.png")] =
      lastRegistered k
        ((retainedParts (contentIDSample.attachments ++ contentIDSample.inlines)).zip
          [⟨"logo.png", "logo.png"⟩, ⟨"doc.pdf", "doc.pdf"⟩, ⟨"a.png", "a.png"⟩]) :=
  have hrun : writeAttachments okFileSystem () "out" contentIDSample =
      some ([⟨"logo.png", "logo.png"⟩, ⟨"doc.pdf", "doc.pdf"⟩, ⟨"a.png", "a.png"⟩],
        [("", "a.png"), ("img1", "logo.png")], ()) := by decide
  ⟨hrun, (writeAttachments_contentIDMap okFileSystem () "out" contentIDSample _ hrun).2⟩

/-- Counterexample to C10 as stated: the only part of `bracketsOnly` is the plain
attachment `a.png` with the content-ID `<>`, which is empty after stripping, and the
returned map has the empty string as a key, bound to `a.png`. Moreover, when `a.png`
and `b.png` carry the same content-ID `<x>`, both are retained under their own names
and the one entry for `x` holds the name `b.png`, so the entry for the part `a.png`
does not hold that part's file name. -/
theorem writeAttachments_contentIDMap_counterexample :
    trim "<>" "<>" = "" ∧
    writeAttachments okFileSystem () "out" bracketsOnly =
      some ([⟨"a.png", "a.png"⟩], [("", "a.png")], ()) ∧
    (writeAttachments okFileSystem () "out" bracketsOnly).map (fun r => r.2.1.lookup "") =
      some (some "a.png") ∧
    (writeAttachments okFileSystem () "out" sameContentID).map
        (fun r => (r.1.map Attachment.name, r.2.1.lookup "x")) =
      some (["a.png", "b.png"], some "b.png") := by
  decide

/-! ## Rewriting of hypertext bodies -/

theorem rewriteHTML_f_attr (L : Library) (M : List (String × String)) (n : Node) :
    (rewriteHTML.f L M n).attr = rewriteAttrs L M n.dataAtom n.attr := by
  cases n
  simp [rewriteHTML.f, Node.attr, Node.dataAtom]

mutual
theorem nodes_rewriteHTML_f (L : Library) (M : List (String × String)) :
    ∀ n : Node, (rewriteHTML.f L M n).nodes = n.nodes.map (rewriteHTML.f L M)
  | .mk type dataAtom data nameSpace attr children => by
    have hrest := nodesOfList_rewriteHTML_fChildren L M children
    simp only [rewriteHTML.f, Node.nodes, List.map_cons, hrest]
theorem nodesOfList_rewriteHTML_fChildren (L : Library) (M : List (String × String)) :
    ∀ cs : List Node, Node.nodesOfList (rewriteHTML.fChildren L M cs) =
      (Node.nodesOfList cs).map (rewriteHTML.f L M)
  | [] => by simp [rewriteHTML.fChildren, Node.nodesOfList]
  | c :: rest => by
    have hc := nodes_rewriteHTML_f L M c
    have hrest := nodesOfList_rewriteHTML_fChildren L M rest
    simp only [rewriteHTML.fChildren, Node.nodesOfList, List.map_append, hc, hrest]
end

theorem nodes_rewriteHTML_f_getElem? (L : Library) (M : List (String × String))
    (doc n : Node) (j : Nat) (hn : doc.nodes[j]? = some n) :
    (rewriteHTML.f L M doc).nodes[j]? = some (rewriteHTML.f L M n) := by
  rw [nodes_rewriteHTML_f, List.getElem?_map, hn, Option.map_some']

theorem rewriteSrc_httpEquivAttrs (L : Library) (M : List (String × String)) :
    httpEquivAttrs.map (rewriteSrc L M) = httpEquivAttrs := by
  have h1 : hasPrefix "Content-Type" "cid:" = false := by decide
  have h2 : hasPrefix "text/html; charset=utf-8" "cid:" = false := by decide
  simp [httpEquivAttrs, rewriteSrc, h1, h2]

theorem rewriteSrc_charsetAttrs (L : Library) (M : List (String × String)) :
    charsetAttrs.map (rewriteSrc L M) = charsetAttrs := by
  have h1 : hasPrefix "utf-8" "cid:" = false := by decide
  simp [charsetAttrs, rewriteSrc, h1]

theorem foldl_metaStep_httpEquiv (L : Library) (post : List Attribute)
    (hpost : ∀ b ∈ post, L.toLower b.key ≠ "charset") :
    post.foldl (metaStep L) httpEquivAttrs = httpEquivAttrs := by
  induction post with
  | nil => rfl
  | cons b post ih =>
    have hb : L.toLower b.key ≠ "charset" := hpost b (by simp)
    have hstep : metaStep L httpEquivAttrs b = httpEquivAttrs := by
      simp [metaStep, hb]
    rw [List.foldl_cons, hstep]
    exact ih fun c hc => hpost c (by simp [hc])

theorem foldl_metaStep_charset (L : Library) (post : List Attribute)
    (hpost : ∀ b ∈ post,
      ¬ (L.toLower b.key = "http-equiv" ∧ L.toLower b.val = "content-type")) :
    post.foldl (metaStep L) charsetAttrs = charsetAttrs := by
  induction post with
  | nil => rfl
  | cons b post ih =>
    have hb := hpost b (by simp)
    have hstep : metaStep L charsetAttrs b = charsetAttrs := by
      by_cases hk : L.toLower b.key = "http-equiv"
      · have hv : L.toLower b.val ≠ "content-type" := fun hv => hb ⟨hk, hv⟩
        simp [metaStep, hk, hv]
      · simp [metaStep, hk]
    rw [List.foldl_cons, hstep]
    exact ih fun c hc => hpost c (by simp [hc])

theorem foldl_metaStep_clean (L : Library) (attr cur : List Attribute)
    (hclean : ∀ b ∈ attr, L.toLower b.key ≠ "charset" ∧
      ¬ (L.toLower b.key = "http-equiv" ∧ L.toLower b.val = "content-type")) :
    attr.foldl (metaStep L) cur = cur := by
  induction attr with
  | nil => rfl
  | cons b attr ih =>
    have hb := hclean b (by simp)
    have hstep : metaStep L cur b = cur := by
      by_cases hk : L.toLower b.key = "http-equiv"
      · have hv : L.toLower b.val ≠ "content-type" := fun hv => hb.2 ⟨hk, hv⟩
        simp [metaStep, hk, hv]
      · simp [metaStep, hk, hb.1]
    rw [List.foldl_cons, hstep]
    exact ih fun c hc => hclean c (by simp [hc])

theorem rewriteHTML_f_meta_node (L : Library) (M : List (String × String)) (n : Node)
    (pre post : List Attribute) (a : Attribute)
    (hmeta : n.dataAtom = Atom.Meta) (hattr : n.attr = pre ++ a :: post) :
    ((L.toLower a.key = "http-equiv" ∧ L.toLower a.val = "content-type") →
      (∀ b ∈ post, L.toLower b.key ≠ "charset") →
      (rewriteHTML.f L M n).attr = httpEquivAttrs) ∧
    (L.toLower a.key = "charset" →
      (∀ b ∈ post, ¬ (L.toLower b.key = "http-equiv" ∧ L.toLower b.val = "content-type")) →
      (rewriteHTML.f L M n).attr = charsetAttrs) := by
  rw [rewriteHTML_f_attr, hmeta, hattr]
  constructor
  · intro ha hpost
    have hstep : ∀ cur, metaStep L cur a = httpEquivAttrs := by
      intro cur
      simp [metaStep, ha.1, ha.2]
    simp only [rewriteAttrs, beq_self_eq_true, if_true, metaLoop, List.foldl_append,
      List.foldl_cons, hstep, foldl_metaStep_httpEquiv L post hpost, rewriteSrc_httpEquivAttrs]
  · intro ha hpost
    have hstep : ∀ cur, metaStep L cur a = charsetAttrs := by
      intro cur
      simp [metaStep, ha]
    simp only [rewriteAttrs, beq_self_eq_true, if_true, metaLoop, List.foldl_append,
      List.foldl_cons, hstep, foldl_metaStep_charset L post hpost, rewriteSrc_charsetAttrs]

/-- C8 (as the code behaves): let `n` be the `j`-th node, in document order, of the
parsed tree `doc`, a meta element with the attributes `pre ++ a :: post`. The tree that
the closure `f` produces from `doc` has a `j`-th node, and on it the last attribute of
`n` that is either an `http-equiv`/`content-type` attribute or a `charset` attribute
(keys and values compared after lower-casing) has decided: if `a` is an
`http-equiv`/`content-type` attribute followed by no `charset` attribute, the node has
exactly the two attributes `http-equiv="Content-Type"` and
`content="text/html; charset=utf-8"`; if `a` is a `charset` attribute followed by no
`http-equiv`/`content-type` attribute, it has exactly `charset="utf-8"`. The attributes
before `a` are arbitrary. -/
theorem rewriteHTML_f_meta (L : Library) (M : List (String × String)) (doc n : Node)
    (j : Nat) (pre post : List Attribute) (a : Attribute)
    (hn : doc.nodes[j]? = some n)
    (hmeta : n.dataAtom = Atom.Meta) (hattr : n.attr = pre ++ a :: post) :
    ∃ n1 : Node, (rewriteHTML.f L M doc).nodes[j]? = some n1 ∧
      ((L.toLower a.key = "http-equiv" ∧ L.toLower a.val = "content-type") →
        (∀ b ∈ post, L.toLower b.key ≠ "charset") →
        n1.attr = httpEquivAttrs) ∧
      (L.toLower a.key = "charset" →
        (∀ b ∈ post,
          ¬ (L.toLower b.key = "http-equiv" ∧ L.toLower b.val = "content-type")) →
        n1.attr = charsetAttrs) :=
  ⟨rewriteHTML.f L M n, nodes_rewriteHTML_f_getElem? L M doc n j hn,
    rewriteHTML_f_meta_node L M n pre post a hmeta hattr⟩

/-- Witness of C8: in the document `html > head > meta, body > img` the meta element is
the node of index 3. `<meta name="x" charset="latin1" http-equiv="Content-Type"
content="text/html; charset=latin1">` ends with the two `http-equiv` attributes, and
`<meta name="x" charset="latin1" lang="en">` ends with `charset="utf-8"`. -/
theorem rewriteHTML_f_meta_witness :
    ((rewriteHTML.f sampleLibrary photoMap
      (sampleDocument [⟨"", "name", "x"⟩, ⟨"", "charset", "latin1"⟩,
        ⟨"", "http-equiv", "Content-Type"⟩, ⟨"", "content", "text/html; charset=latin1"⟩]
        [⟨"", "src", "cid:img1"⟩])).nodes[3]?).map Node.attr = some httpEquivAttrs ∧
    ((rewriteHTML.f sampleLibrary photoMap
      (sampleDocument [⟨"", "name", "x"⟩, ⟨"", "charset", "latin1"⟩, ⟨"", "lang", "en"⟩]
        [⟨"", "src", "cid:img1"⟩])).nodes[3]?).map Node.attr = some charsetAttrs := by
  constructor
  · obtain ⟨n1, h1, h2, _⟩ := rewriteHTML_f_meta sampleLibrary photoMap
      (sampleDocument [⟨"", "name", "x"⟩, ⟨"", "charset", "latin1"⟩,
        ⟨"", "http-equiv", "Content-Type"⟩, ⟨"", "content", "text/html; charset=latin1"⟩]
        [⟨"", "src", "cid:img1"⟩])
      (metaElement [⟨"", "name", "x"⟩, ⟨"", "charset", "latin1"⟩,
        ⟨"", "http-equiv", "Content-Type"⟩, ⟨"", "content", "text/html; charset=latin1"⟩])
      3 [⟨"", "name", "x"⟩, ⟨"", "charset", "latin1"⟩]
      [⟨"", "content", "text/html; charset=latin1"⟩] ⟨"", "http-equiv", "Content-Type"⟩
      rfl rfl rfl
    rw [h1, Option.map_some', h2 (by decide) (by decide)]
  · obtain ⟨n1, h1, _, h3⟩ := rewriteHTML_f_meta sampleLibrary photoMap
      (sampleDocument [⟨"", "name", "x"⟩, ⟨"", "charset", "latin1"⟩, ⟨"", "lang", "en"⟩]
        [⟨"", "src", "cid:img1"⟩])
      (metaElement [⟨"", "name", "x"⟩, ⟨"", "charset", "latin1"⟩, ⟨"", "lang", "en"⟩])
      3 [⟨"", "name", "x"⟩] [⟨"", "lang", "en"⟩] ⟨"", "charset", "latin1"⟩ rfl rfl rfl
    rw [h1, Option.map_some', h3 (by decide) (by decide)]

/-- Counterexample to C8 as stated: in the document whose head holds
`<meta http-equiv="content-type" charset="latin1">`, the meta element (the node of
index 3) carries an `http-equiv`/`content-type` attribute and ends with
`charset="utf-8"` alone, not with the two `http-equiv` attributes. -/
theorem rewriteHTML_f_meta_counterexample :
    ((sampleDocument [⟨"", "http-equiv", "content-type"⟩, ⟨"", "charset", "latin1"⟩]
        [⟨"", "src", "photo.png"⟩]).nodes[3]?).map (fun n => (n.dataAtom, n.attr)) =
      some (Atom.Meta, [⟨"", "http-equiv", "content-type"⟩, ⟨"", "charset", "latin1"⟩]) ∧
    ((rewriteHTML.f sampleLibrary []
      (sampleDocument [⟨"", "http-equiv", "content-type"⟩, ⟨"", "charset", "latin1"⟩]
        [⟨"", "src", "photo.png"⟩])).nodes[3]?).map Node.attr =
      some [⟨"", "charset", "utf-8"⟩] ∧
    ([⟨"", "charset", "utf-8"⟩] : List Attribute) ≠
      [⟨"", "http-equiv", "Content-Type"⟩, ⟨"", "content", "text/html; charset=utf-8"⟩] := by
  decide

theorem hasPrefix_append (p s : String) : hasPrefix (p ++ s) p = true := by
  simp [hasPrefix, String.data_append]

theorem trimPrefix_append (p s : String) : trimPrefix (p ++ s) p = s := by
  simp [trimPrefix, hasPrefix_append, String.data_append]

theorem rewriteAttrs_of_not_normalized (L : Library) (M : List (String × String))
    (dataAtom : Atom) (attr : List Attribute)
    (hnorm : dataAtom = Atom.Meta → ∀ b ∈ attr, L.toLower b.key ≠ "charset" ∧
      ¬ (L.toLower b.key = "http-equiv" ∧ L.toLower b.val = "content-type")) :
    rewriteAttrs L M dataAtom attr = attr.map (rewriteSrc L M) := by
  by_cases h : dataAtom = Atom.Meta
  · simp [rewriteAttrs, h, metaLoop, foldl_metaStep_clean L attr attr (hnorm h)]
  · simp [rewriteAttrs, h]

theorem rewriteHTML_f_src_node (L : Library) (M : List (String × String)) (n : Node)
    (hnorm : n.dataAtom = Atom.Meta → ∀ b ∈ n.attr, L.toLower b.key ≠ "charset" ∧
      ¬ (L.toLower b.key = "http-equiv" ∧ L.toLower b.val = "content-type")) :
    (rewriteHTML.f L M n).attr.length = n.attr.length ∧
    (∀ (i : Nat) (a : Attribute) (id : String), n.attr[i]? = some a →
      L.toLower a.key = "src" → a.val = "cid:" ++ id →
      (rewriteHTML.f L M n).attr[i]? =
        some (match M.lookup id with
          | some dst => ⟨a.nameSpace, a.key, "../attachments/" ++ dst⟩
          | none => a)) ∧
    (∀ (i : Nat) (a : Attribute), n.attr[i]? = some a →
      ¬ (L.toLower a.key = "src" ∧ hasPrefix a.val "cid:" = true) →
      (rewriteHTML.f L M n).attr[i]? = some a) := by
  rw [rewriteHTML_f_attr, rewriteAttrs_of_not_normalized L M _ _ hnorm]
  refine ⟨by simp, ?_, ?_⟩
  · intro i a id hi hkey hval
    rw [List.getElem?_map, hi, Option.map_some']
    congr 1
    simp only [rewriteSrc, hkey, hval, hasPrefix_append, trimPrefix_append, beq_self_eq_true,
      Bool.and_self, if_true]
  · intro i a hi hnot
    rw [List.getElem?_map, hi, Option.map_some']
    congr 1
    have hcond : (L.toLower a.key == "src" && hasPrefix a.val "cid:") = false := by
      by_cases hk : L.toLower a.key = "src"
      · have hp : hasPrefix a.val "cid:" = false := by
          simpa using fun hp => hnot ⟨hk, hp⟩
        simp [hp]
      · simp [hk]
    simp [rewriteSrc, hcond]

/-- C6 (as the code behaves): let `n` be the `j`-th node, in document order, of the
parsed tree `doc`, and let the character-set normalization leave its attribute list
alone (`n` is any node but a meta element with a `charset` or `http-equiv`/`content-type`
attribute). The tree that the closure `f` produces from `doc` has a `j`-th node `n1`
with as many attributes as `n`; an attribute of `n` whose key lower-cases to `src` and
whose value is `"cid:" ++ id` has, at the same position of `n1`, the value
`"../attachments/" ++ dst` when the map binds `id` to `dst` and is unchanged when `id`
is not a key; every attribute that is not a `src` attribute with the `cid:` prefix is
unchanged. -/
theorem rewriteHTML_f_src (L : Library) (M : List (String × String)) (doc n : Node)
    (j : Nat) (hn : doc.nodes[j]? = some n)
    (hnorm : n.dataAtom = Atom.Meta → ∀ b ∈ n.attr, L.toLower b.key ≠ "charset" ∧
      ¬ (L.toLower b.key = "http-equiv" ∧ L.toLower b.val = "content-type")) :
    ∃ n1 : Node, (rewriteHTML.f L M doc).nodes[j]? = some n1 ∧
      n1.attr.length = n.attr.length ∧
      (∀ (i : Nat) (a : Attribute) (id : String), n.attr[i]? = some a →
        L.toLower a.key = "src" → a.val = "cid:" ++ id →
        n1.attr[i]? =
          some (match M.lookup id with
            | some dst => ⟨a.nameSpace, a.key, "../attachments/" ++ dst⟩
            | none => a)) ∧
      (∀ (i : Nat) (a : Attribute), n.attr[i]? = some a →
        ¬ (L.toLower a.key = "src" ∧ hasPrefix a.val "cid:" = true) →
        n1.attr[i]? = some a) :=
  ⟨rewriteHTML.f L M n, nodes_rewriteHTML_f_getElem? L M doc n j hn,
    rewriteHTML_f_src_node L M n hnorm⟩

/-- Witness of C6: in the document `html > head > meta, body > img` the img element is
the node of index 5. With the map `{img1 -> photo.png}`, `<img alt="x" SRC="cid:img1">`
ends with `alt="x"` and `SRC="../attachments/photo.png"`, and `<img src="cid:missing">`
keeps its value. -/
theorem rewriteHTML_f_src_witness :
    ((rewriteHTML.f sampleLibrary photoMap
      (sampleDocument [⟨"", "name", "viewport"⟩]
        [⟨"", "alt", "x"⟩, ⟨"", "SRC", "cid:img1"⟩])).nodes[5]?).map Node.attr =
      some [⟨"", "alt", "x"⟩, ⟨"", "SRC", "../attachments/photo.png"⟩] ∧
    ((rewriteHTML.f sampleLibrary photoMap
      (sampleDocument [⟨"", "name", "viewport"⟩]
        [⟨"", "src", "cid:missing"⟩])).nodes[5]?).map Node.attr =
      some [⟨"", "src", "cid:missing"⟩] := by
  constructor
  · obtain ⟨n1, h1, hlen, hsrc, hother⟩ := rewriteHTML_f_src sampleLibrary photoMap
      (sampleDocument [⟨"", "name", "viewport"⟩] [⟨"", "alt", "x"⟩, ⟨"", "SRC", "cid:img1"⟩])
      (imgElement [⟨"", "alt", "x"⟩, ⟨"", "SRC", "cid:img1"⟩]) 5 rfl (by decide)
    have h0 := hother 0 ⟨"", "alt", "x"⟩ rfl (by decide)
    have h1a := hsrc 1 ⟨"", "SRC", "cid:img1"⟩ "img1" rfl (by decide) (by decide)
    rw [h1, Option.map_some']
    congr 1
    apply List.ext_getElem?
    intro i
    match i with
    | 0 => rw [h0]; rfl
    | 1 => rw [h1a]; rfl
    | k + 2 =>
      have hk : n1.attr.length ≤ k + 2 := by rw [hlen]; simp [imgElement, Node.attr]
      rw [List.getElem?_eq_none hk]
      rfl
  · obtain ⟨n1, h1, hlen, hsrc, _⟩ := rewriteHTML_f_src sampleLibrary photoMap
      (sampleDocument [⟨"", "name", "viewport"⟩] [⟨"", "src", "cid:missing"⟩])
      (imgElement [⟨"", "src", "cid:missing"⟩]) 5 rfl (by decide)
    have h0 := hsrc 0 ⟨"", "src", "cid:missing"⟩ "missing" rfl (by decide) (by decide)
    rw [h1, Option.map_some']
    congr 1
    apply List.ext_getElem?
    intro i
    match i with
    | 0 => rw [h0]; rfl
    | k + 1 =>
      have hk : n1.attr.length ≤ k + 1 := by rw [hlen]; simp [imgElement, Node.attr]
      rw [List.getElem?_eq_none hk]
      rfl

/-- Counterexample to C6 as stated: with the map `{img1 -> photo.png}`, in the document
whose head holds `<meta charset="latin1" src="cid:img1">` the meta element (the node of
index 3) ends with `charset="utf-8"` alone; its `src` attribute, whose identifier is a
key of the map, does not get the value `../attachments/photo.png`. -/
theorem rewriteHTML_f_src_counterexample :
    photoMap.lookup "img1" = some "photo.png" ∧
    ((sampleDocument [⟨"", "charset", "latin1"⟩, ⟨"", "src", "cid:img1"⟩]
        [⟨"", "alt", "x"⟩]).nodes[3]?).map Node.attr =
      some [⟨"", "charset", "latin1"⟩, ⟨"", "src", "cid:img1"⟩] ∧
    ((rewriteHTML.f sampleLibrary photoMap
      (sampleDocument [⟨"", "charset", "latin1"⟩, ⟨"", "src", "cid:img1"⟩]
        [⟨"", "alt", "x"⟩])).nodes[3]?).map Node.attr =
      some [⟨"", "charset", "utf-8"⟩] := by
  decide

theorem rewriteSrc_of_not_cid (L : Library) (M : List (String × String))
    (attr : List Attribute)
    (hsrc : ∀ a ∈ attr, ¬ (L.toLower a.key = "src" ∧ hasPrefix a.val "cid:" = true)) :
    attr.map (rewriteSrc L M) = attr := by
  induction attr with
  | nil => rfl
  | cons a attr ih =>
    have ha := hsrc a (by simp)
    have hcond : (L.toLower a.key == "src" && hasPrefix a.val "cid:") = false := by
      by_cases hk : L.toLower a.key = "src"
      · have hp : hasPrefix a.val "cid:" = false := by
          simpa using fun hp => ha ⟨hk, hp⟩
        simp [hp]
      · simp [hk]
    rw [List.map_cons, ih fun b hb => hsrc b (by simp [hb])]
    simp [rewriteSrc, hcond]

mutual
theorem rewriteHTML_f_fixed (L : Library) (M : List (String × String)) :
    ∀ n : Node, (∀ x ∈ n.nodes, rewriteAttrs L M x.dataAtom x.attr = x.attr) →
      rewriteHTML.f L M n = n
  | .mk type dataAtom data nameSpace attr children, h => by
    have hroot := h (.mk type dataAtom data nameSpace attr children) (by simp [Node.nodes])
    simp only [Node.dataAtom, Node.attr] at hroot
    have hrest := rewriteHTML_fChildren_fixed L M children
      fun x hx => h x (by simp [Node.nodes, hx])
    simp only [rewriteHTML.f, hroot, hrest]
theorem rewriteHTML_fChildren_fixed (L : Library) (M : List (String × String)) :
    ∀ cs : List Node,
      (∀ x ∈ Node.nodesOfList cs, rewriteAttrs L M x.dataAtom x.attr = x.attr) →
      rewriteHTML.fChildren L M cs = cs
  | [], _ => by simp [rewriteHTML.fChildren]
  | c :: rest, h => by
    have hc := rewriteHTML_f_fixed L M c fun x hx => h x (by simp [Node.nodesOfList, hx])
    have hrest := rewriteHTML_fChildren_fixed L M rest
      fun x hx => h x (by simp [Node.nodesOfList, hx])
    simp only [rewriteHTML.fChildren, hc, hrest]
end

/-- C7 (as the code behaves): when no node of the document carries an attribute whose
key lower-cases to `src` and whose value has the prefix `cid:`, and no meta element
carries a `charset` attribute or an `http-equiv`/`content-type` attribute, the closure
`f` returns the tree unchanged, whatever the content-ID map is, and `rewriteHTML`
renders the parsed tree as it was parsed. -/
theorem rewriteHTML_f_identity (L : Library) (M : List (String × String)) (doc : Node)
    (hsrc : ∀ n ∈ doc.nodes, ∀ a ∈ n.attr,
      ¬ (L.toLower a.key = "src" ∧ hasPrefix a.val "cid:" = true))
    (hmeta : ∀ n ∈ doc.nodes, n.dataAtom = Atom.Meta → ∀ a ∈ n.attr,
      L.toLower a.key ≠ "charset" ∧
      ¬ (L.toLower a.key = "http-equiv" ∧ L.toLower a.val = "content-type")) :
    rewriteHTML.f L M doc = doc ∧
    ∀ b : String, L.htmlParse b = some doc → rewriteHTML L M b = L.htmlRender doc := by
  have hfix : rewriteHTML.f L M doc = doc := by
    apply rewriteHTML_f_fixed
    intro x hx
    rw [rewriteAttrs_of_not_normalized L M _ _ (hmeta x hx),
      rewriteSrc_of_not_cid L M _ (hsrc x hx)]
  exact ⟨hfix, fun b hb => by simp [rewriteHTML, hb, hfix]⟩

/-- Witness of C7: a document with `<meta name="viewport" content="width=80">` and
`<img src="photo.png" alt="cid:img1">` is returned unchanged under the map
`{img1 -> photo.png}`. -/
theorem rewriteHTML_f_identity_witness :
    rewriteHTML.f sampleLibrary photoMap
        (sampleDocument [⟨"", "name", "viewport"⟩, ⟨"", "content", "width=80"⟩]
          [⟨"", "src", "photo.png"⟩, ⟨"", "alt", "cid:img1"⟩]) =
      sampleDocument [⟨"", "name", "viewport"⟩, ⟨"", "content", "width=80"⟩]
        [⟨"", "src", "photo.png"⟩, ⟨"", "alt", "cid:img1"⟩] :=
  (rewriteHTML_f_identity sampleLibrary photoMap
    (sampleDocument [⟨"", "name", "viewport"⟩, ⟨"", "content", "width=80"⟩]
      [⟨"", "src", "photo.png"⟩, ⟨"", "alt", "cid:img1"⟩]) (by decide) (by decide)).1

/-- Counterexample to C7 as stated: the document with `<meta charset="latin1">` and
`<img src="photo.png">` has no attribute at all whose value has the prefix `cid:`, and
the closure `f` changes the attribute list of its meta element to `charset="utf-8"`. -/
theorem rewriteHTML_f_identity_counterexample :
    (∀ n ∈ (sampleDocument [⟨"", "charset", "latin1"⟩] [⟨"", "src", "photo.png"⟩]).nodes,
      ∀ a ∈ n.attr, hasPrefix a.val "cid:" = false) ∧
    (sampleDocument [⟨"", "charset", "latin1"⟩] [⟨"", "src", "photo.png"⟩]).nodes.map
        Node.attr =
      [[], [], [], [⟨"", "charset", "latin1"⟩], [], [⟨"", "src", "photo.png"⟩]] ∧
    (rewriteHTML.f sampleLibrary []
      (sampleDocument [⟨"", "charset", "latin1"⟩] [⟨"", "src", "photo.png"⟩])).nodes.map
        Node.attr =
      [[], [], [], [⟨"", "charset", "utf-8"⟩], [], [⟨"", "src", "photo.png"⟩]] := by
  decide

/-! ## Names of the body artifacts -/

theorem writeTextLoop_names {σ : Type} (fs : FileSystem σ) (root name : String)
    (tc : List String) :
    ∀ (bodies : List String) (i : Nat) (disk : σ) (r : List String × σ),
      writeTextLoop fs root name tc i bodies disk = some r →
      r.1 = (List.range bodies.length).map fun j =>
        if tc.length > 1 then name ++ "_" ++ toString (i + j + 1) ++ ".txt"
        else name ++ ".txt" := by
  intro bodies
  induction bodies with
  | nil =>
    intro i disk r h
    simp only [writeTextLoop, Option.some.injEq] at h
    subst h
    simp
  | cons b rest ih =>
    intro i disk r h
    simp only [writeTextLoop] at h
    split at h
    · simp at h
    · rename_i d hw
      cases hrec : writeTextLoop fs root name tc (i + 1) rest d with
      | none => simp [hrec] at h
      | some r1 =>
        simp only [hrec, Option.some.injEq] at h
        subst h
        have := ih (i + 1) d r1 hrec
        simp only [this, List.length_cons, List.range_succ_eq_map, List.map_cons, List.map_map]
        simp [Function.comp_def, Nat.add_assoc, Nat.add_comm 1]

theorem writeHTMLLoop_names {σ : Type} (L : Library) (fs : FileSystem σ) (root name : String)
    (M : List (String × String)) (hc : List String) :
    ∀ (bodies : List String) (i : Nat) (disk : σ) (r : List String × σ),
      writeHTMLLoop L fs root name M hc i bodies disk = some r →
      r.1 = (List.range bodies.length).map fun j =>
        if hc.length > 1 then name ++ "_" ++ toString (i + j + 1) ++ ".html"
        else name ++ ".html" := by
  intro bodies
  induction bodies with
  | nil =>
    intro i disk r h
    simp only [writeHTMLLoop, Option.some.injEq] at h
    subst h
    simp
  | cons b rest ih =>
    intro i disk r h
    simp only [writeHTMLLoop] at h
    split at h
    · simp at h
    · rename_i d hw
      cases hrec : writeHTMLLoop L fs root name M hc (i + 1) rest d with
      | none => simp [hrec] at h
      | some r1 =>
        simp only [hrec, Option.some.injEq] at h
        subst h
        have := ih (i + 1) d r1 hrec
        simp only [this, List.length_cons, List.range_succ_eq_map, List.map_cons, List.map_map]
        simp [Function.comp_def, Nat.add_assoc, Nat.add_comm 1]

/-- C9 (as the code behaves): when `writeContent` returns without a write failure, with
`stem` the message name without its extension, `tc` and `hc` the plain-text and
hypertext selections BEFORE the emptiness filter and `n` the number of bodies that
survive the filter, the text artifacts are named `stem_1.txt`, ..., `stem_n.txt` when
`tc` has more than one element, and `stem.txt` (once per survivor, so at most once)
when `tc` has at most one element; likewise for the hypertext artifacts with `hc` and
`.html`. The suffix depends on the number of selected bodies, not of surviving ones. -/
theorem writeContent_names {σ : Type} (L : Library) (fs : FileSystem σ) (disk : σ)
    (root name : String) (msg : Envelope) (M : List (String × String))
    (r : List String × List String × σ)
    (hrun : writeContent L fs disk root name msg M = some r) :
    r.1 = (List.range (cleanTC (findMainContent msg.root ContentTypeTextPlain)).length).map
      (fun j =>
        if (findMainContent msg.root ContentTypeTextPlain).length > 1 then
          trimSuffix name (filepathExt name) ++ "_" ++ toString (j + 1) ++ ".txt"
        else trimSuffix name (filepathExt name) ++ ".txt") ∧
    r.2.1 = (List.range (cleanHC L (findMainContent msg.root ContentTypeTextHTML)).length).map
      (fun j =>
        if (findMainContent msg.root ContentTypeTextHTML).length > 1 then
          trimSuffix name (filepathExt name) ++ "_" ++ toString (j + 1) ++ ".html"
        else trimSuffix name (filepathExt name) ++ ".html") := by
  simp only [writeContent] at hrun
  split at hrun
  · simp at hrun
  · rename_i d0 hmk
    split at hrun
    · simp at hrun
    · rename_i txt d1 htxt
      split at hrun
      · simp at hrun
      · rename_i html d2 hhtml
        simp only [Option.some.injEq] at hrun
        subst hrun
        have h1 := writeTextLoop_names fs _ _ _ _ 0 d0 _ htxt
        have h2 := writeHTMLLoop_names L fs _ _ M _ _ 0 d1 _ hhtml
        simp only [Nat.zero_add] at h1 h2
        exact ⟨h1, h2⟩

/-- Witness of C9: for the message `m.eml`, one selected body that survives is written
as `m.txt`, and three selected bodies of which two survive are written as `m_1.txt`
and `m_2.txt`. -/
theorem writeContent_names_witness :
    (writeContent sampleLibrary okFileSystem () "out" "m.eml" (textBodies ["hello"]) []).map
        (fun r => r.1) = some ["m.txt"] ∧
    (writeContent sampleLibrary okFileSystem () "out" "m.eml"
        (textBodies ["a", " \n", "b"]) []).map (fun r => r.1) = some ["m_1.txt", "m_2.txt"] :=
  have h1 : writeContent sampleLibrary okFileSystem () "out" "m.eml" (textBodies ["hello"]) [] =
      some (["m.txt"], [], ()) := by decide
  have h2 : writeContent sampleLibrary okFileSystem () "out" "m.eml"
      (textBodies ["a", " \n", "b"]) [] = some (["m_1.txt", "m_2.txt"], [], ()) := by decide
  ⟨h1 ▸ congrArg some
      ((writeContent_names sampleLibrary okFileSystem () "out" "m.eml" (textBodies ["hello"])
        [] _ h1).1.trans (by decide)),
    h2 ▸ congrArg some
      ((writeContent_names sampleLibrary okFileSystem () "out" "m.eml"
        (textBodies ["a", " \n", "b"]) [] _ h2).1.trans (by decide))⟩

/-- Counterexample to C9 as stated: of the two selected plain-text bodies of the message
`m.eml` exactly one survives the emptiness filter, and it is written as `m_1.txt`, not
as `m.txt`. -/
theorem writeContent_names_counterexample :
    findMainContent (textBodies ["hello", "   "]).root ContentTypeTextPlain =
      ["hello", "   "] ∧
    cleanTC (findMainContent (textBodies ["hello", "   "]).root ContentTypeTextPlain) =
      ["hello"] ∧
    (writeContent sampleLibrary okFileSystem () "out" "m.eml"
        (textBodies ["hello", "   "]) []).map (fun r => r.1) = some ["m_1.txt"] := by
  decide

end Eml2html
